import Mathlib

/-!
Shallow embedding of the MeTA feature-extraction pipeline core.

Sources embedded:
* `src/src/parser/analyzers/featurizers/depth_featurizer.cpp` — the
  `height_visitor` and `depth_featurizer::tree_tokenize`.
* `src/include/analyzers/analyzer.h` — the `analyzer<T>` contract
  (`analyze`, `clone`, `tokenize`, the `static_assert` on the feature
  value type) and the declaration of `load`.
* `src/unnamed/part_000` (the `ngram_pos_analyzer.h` header) — the
  n-gram-over-POS-tags analyzer's declared interface.

The implementations of `ngram_pos_analyzer::tokenize`, its constructors,
`analyzer_traits<ngram_pos_analyzer<T>>::create`, `analyzer::analyze` and
`load` are not present under `src/` (only their declarations are), so
those operations are modelled from the specification, each marked
`Modelled from the spec:` in its doc comment.
-/

/-! ## Parse trees and the height visitor
From `src/src/parser/analyzers/featurizers/depth_featurizer.cpp`:
the parse tree has exactly two node variants, `internal_node`
(with an ordered list of children) and `leaf_node`. -/

/-- A parse-tree node: either a leaf (pre-terminal, carries a label) or an
internal node with an ordered list of children. -/
inductive node : Type where
  | leaf (label : String) : node
  | internal (category : String) (children : List node) : node

mutual
/-- The `height_visitor` of `depth_featurizer.cpp`: a leaf has height 1; an
internal node folds `max` over its children's heights (running maximum
starting at 0) and adds 1. -/
def height : node → Nat
  | node.leaf _ => 1
  | node.internal _ cs => heightAux 0 cs + 1

/-- The `each_child` accumulation inside `height_visitor`:
`max_height = std::max(max_height, child->accept(*this))` over the
children in order. -/
def heightAux : Nat → List node → Nat
  | acc, [] => acc
  | acc, c :: cs => heightAux (max acc (height c)) cs
end

/-! ## Feature maps
`analyzer.h` defines `feature_map = std::unordered_map<std::string, T>`;
`counts[key] += 1` value-initializes an absent entry to zero and then
increments.  We model a map as an association list with unique keys,
and `uint64_t` arithmetic as `Nat` taken mod `2 ^ 64`. -/

/-- Modulus of `uint64_t` arithmetic. -/
def UINT64_LIMIT : Nat := 2 ^ 64

/-- A feature map: association list from feature name to numeric value. -/
abbrev feature_map (T : Type) : Type := List (String × T)

/-- Lookup of a key in a feature map. -/
def fm_find? {T : Type} : feature_map T → String → Option T
  | [], _ => none
  | (k, v) :: rest, key => if k = key then some v else fm_find? rest key

/-- Lookup with the `unordered_map::operator[]` default of zero. -/
def fm_getD (m : feature_map Nat) (key : String) : Nat :=
  (fm_find? m key).getD 0

/-- `counts[key] += 1` on a `uint64_t`-valued map: update the entry in
place when present, otherwise insert the value-initialized entry plus one. -/
def fm_inc : feature_map Nat → String → feature_map Nat
  | [], key => [(key, 1 % UINT64_LIMIT)]
  | (k, v) :: rest, key =>
      if k = key then (k, (v + 1) % UINT64_LIMIT) :: rest
      else (k, v) :: fm_inc rest key

/-- Folding `fm_inc` over a list of keys, one increment per occurrence. -/
def fm_inc_all (m : feature_map Nat) (keys : List String) : feature_map Nat :=
  keys.foldl fm_inc m

/-! ## The depth featurizer (`tree_tokenize`) -/

/-- The literal key stem used by `depth_featurizer::tree_tokenize`. -/
def depth_key_base : String := "depth-"

/-- The feature key `"depth-" + std::to_string(tree.visit(vtor))`. -/
def depth_key (t : node) : String := depth_key_base ++ toString (height t)

/-- `depth_featurizer::tree_tokenize`: visit the tree with the height
visitor and increment the single feature `"depth-<height>"` by one. -/
def tree_tokenize (tree : node) (counts : feature_map Nat) : feature_map Nat :=
  fm_inc counts (depth_key tree)

/-! ## Concrete example trees (for the spec's worked examples) -/

/-- A leaf label. -/
def lbl_w : String := "w"

/-- A category label. -/
def lbl_S : String := "S"

/-- Another category label. -/
def lbl_NP : String := "NP"

/-- A single-leaf tree. -/
def leaf_tree : node := node.leaf lbl_w

/-- One internal root with two leaf children. -/
def two_leaf_tree : node :=
  node.internal lbl_S [node.leaf lbl_w, node.leaf lbl_NP]

/-- A root → internal → leaf chain. -/
def chain_tree : node :=
  node.internal lbl_S [node.internal lbl_NP [node.leaf lbl_w]]

/-- The expected feature key for a height-1 tree. -/
def depth1_key : String := "depth-1"

/-- The expected feature key for a height-2 tree. -/
def depth2_key : String := "depth-2"

/-- The expected feature key for a height-3 tree. -/
def depth3_key : String := "depth-3"

/-! ## Sequence tagger adapter
The `sequence::crf` implementation is not under `src/`; `part_000` only
declares `std::shared_ptr<sequence::crf> crf_` and the spec gives its
input/output contract (§4.3). -/

/-- Modelled from the spec: the opaque tagging model wrapped by the
Sequence Tagger Adapter.  The tagger labels each observation of a
segment; the label assigned at a position is a pure function of the
(read-only) model, the whole segment, and the position. -/
structure crf_model where
  label : List String → Nat → String

/-- Modelled from the spec: the Sequence Tagger Adapter contract (§4.3) —
given an ordered token sequence for one sentence/segment, return the
ordered tag sequence obtained by labelling each observation in place. -/
def tag_sequence (model : crf_model) (toks : List String) : List String :=
  (List.range toks.length).map (model.label toks)

/-! ## The n-gram-over-tags extractor
`ngram_pos_analyzer::tokenize` is declared in `part_000` but its body is
not under `src/`; it is modelled from spec §4.4. -/

/-- The fixed separator joining the tags of one window. -/
def window_sep : String := "_"

/-- One window of consecutive tags joined with the fixed separator into a
single feature key. -/
def window_key (w : List String) : String := String.intercalate window_sep w

/-- Modelled from the spec: the windows of `n` consecutive tags obtained
by sliding a window of width `n` over the segment's tag sequence. -/
def tag_windows (n : Nat) (tags : List String) : List (List String) :=
  (List.range (tags.length + 1 - n)).map (fun i => (tags.drop i).take n)

/-- The feature keys emitted for one segment, one per window occurrence,
in sliding order. -/
def emitted_windows (n : Nat) (tags : List String) : List String :=
  (tag_windows n tags).map window_key

/-- Modelled from the spec: processing one segment's tag sequence — each
window occurrence increments its feature key's count by one. -/
def segment_tokenize (n : Nat) (tags : List String)
    (counts : feature_map Nat) : feature_map Nat :=
  fm_inc_all counts (emitted_windows n tags)

/-- A document: raw textual content (identifier and path omitted — the
extractors read only the content). -/
structure document where
  content : String
deriving Inhabited, DecidableEq

/-- The `ngram_pos_analyzer` state declared in `part_000`: the n-gram
order, the shared CRF model, the configured filter chain (modelled as a
function from document content to the sentence segments of tokens it
produces), and the privately owned mutable scratch state (the token
stream buffer). -/
structure ngram_pos_analyzer where
  n_value : Nat
  crf : crf_model
  segmenter : String → List (List String)
  scratch : List (List String)

/-- Modelled from the spec: `ngram_pos_analyzer::tokenize` — run the
document through the filter chain, split the token stream into sentence
segments, tag each segment with the CRF, and slide the `n`-window over
each segment's tag sequence, accumulating counts into the caller-supplied
map. -/
def tokenize (a : ngram_pos_analyzer) (doc : document)
    (counts : feature_map Nat) : feature_map Nat :=
  (a.segmenter doc.content).foldl
    (fun m seg => segment_tokenize a.n_value (tag_sequence a.crf seg) m)
    counts

/-- Modelled from the spec: `analyzer::analyze` — create a fresh empty
feature map and delegate to the variant's `tokenize`. -/
def analyze (a : ngram_pos_analyzer) (doc : document) : feature_map Nat :=
  tokenize a doc []

/-- Modelled from the spec: `analyzer::clone` via the copy constructor of
`ngram_pos_analyzer` — configuration and the shared read-only CRF model
are carried over; the mutable scratch state is freshly allocated. -/
def clone (a : ngram_pos_analyzer) : ngram_pos_analyzer :=
  ⟨a.n_value, a.crf, a.segmenter, []⟩

/-- Every window key a document's analysis emits, in emission order. -/
def doc_emitted (a : ngram_pos_analyzer) (doc : document) : List String :=
  ((a.segmenter doc.content).map
    (fun seg => emitted_windows a.n_value (tag_sequence a.crf seg))).flatten

/-! ## Configuration, factory and registry
`analyzer_traits<ngram_pos_analyzer<T>>::create` and `load` are declared
in `part_000` / `analyzer.h` but their bodies are not under `src/`; they
are modelled from spec §4.6 and §7. -/

/-- The configuration errors of the factory/registry layer. -/
inductive config_error : Type where
  | missing_ngram : config_error
  | nonpositive_ngram (value : Int) : config_error
  | missing_crf_path : config_error
  | unknown_method (method : String) : config_error
deriving DecidableEq

/-- One `[[analyzers]]` configuration block: the `ngram` field (a toml
integer, possibly absent) and the `crf-prefix` model path (possibly
absent). -/
structure analyzer_config where
  ngram : Option Int
  crf_path : Option String
deriving DecidableEq

/-- Modelled from the spec:
`analyzer_traits<ngram_pos_analyzer<T>>::create` — `ngram` must be
present and positive (zero or negative values are rejected with a
configuration error, never clamped or defaulted), `crf-prefix` must be
present; the external resources resolved from the configuration (the
filter chain and the CRF model loaded from the path) are supplied by the
environment arguments. -/
def ngram_pos_create (cfg : analyzer_config)
    (chain : String → List (List String)) (model : crf_model) :
    Except config_error ngram_pos_analyzer :=
  match cfg.ngram with
  | none => Except.error config_error.missing_ngram
  | some nv =>
      if nv ≤ 0 then Except.error (config_error.nonpositive_ngram nv)
      else
        match cfg.crf_path with
        | none => Except.error config_error.missing_crf_path
        | some _ => Except.ok ⟨nv.toNat, model, chain, []⟩

/-- Association-list lookup in the registry. -/
def reg_lookup {P : Type} : List (String × P) → String → Option P
  | [], _ => none
  | (k, v) :: rest, key => if k = key then some v else reg_lookup rest key

/-- Modelled from the spec: `load` — resolve the `method` identifier
against the registry and invoke the registered factory; an unknown
identifier is a configuration error.  The registry travels through the
call unchanged (no registration happens during `load`), so the result
pairs the outcome with the registry after the call. -/
def load {P : Type}
    (reg : List (String × (analyzer_config → Except config_error P)))
    (method : String) (cfg : analyzer_config) :
    Except config_error P
      × List (String × (analyzer_config → Except config_error P)) :=
  match reg_lookup reg method with
  | none => (Except.error (config_error.unknown_method method), reg)
  | some create => (create cfg, reg)

/-! ## The feature value kinds (the `static_assert` of `analyzer.h`) -/

/-- The two feature value kinds admitted by the `static_assert` in
`analyzer<T>`: `uint64_t` occurrence counts or `double` weights. -/
inductive feature_kind : Type where
  | counts : feature_kind
  | weights : feature_kind
deriving DecidableEq

/-- The numeric carrier of each kind: `uint64_t` counts are modelled as
`Nat` (arithmetic taken mod `2 ^ 64` where it occurs) and real-valued
`double` weights by the rationals. -/
def feature_value_type : feature_kind → Type
  | feature_kind.counts => Nat
  | feature_kind.weights => Rat

/-- An analyzer belonging to a pipeline instantiated at kind `k`. -/
structure analyzer_instance (k : feature_kind) : Type where
  method : String

/-- Cloning an analyzer instance stays inside the same instantiation. -/
def instance_clone {k : feature_kind} (a : analyzer_instance k) :
    analyzer_instance k :=
  ⟨a.method⟩

/-- A pipeline instantiation: one fixed feature kind shared by every
analyzer in it. -/
structure pipeline (k : feature_kind) : Type where
  analyzers : List (analyzer_instance k)

/-- The feature kind of a pipeline. -/
def pipeline_kind {k : feature_kind} (_ : pipeline k) : feature_kind := k

/-- Cloning every analyzer of a pipeline. -/
def pipeline_clone_all {k : feature_kind} (pl : pipeline k) : pipeline k :=
  ⟨pl.analyzers.map instance_clone⟩

/-! ## The concurrency model (spec §5)
One clone per worker, one document per clone; each worker writes only its
own result slot.  A schedule is the order in which workers complete. -/

/-- Analyzing the documents one after the other, a fresh clone each. -/
def run_sequential (proto : ngram_pos_analyzer) (docs : List document) :
    List (feature_map Nat) :=
  docs.map (fun d => analyze (clone proto) d)

/-- The feature map worker `i` computes on its private clone. -/
def worker_result (proto : ngram_pos_analyzer) (docs : List document)
    (i : Nat) : feature_map Nat :=
  analyze (clone proto) (docs.getD i default)

/-- Worker `i` finishing: it stores its feature map in its own slot. -/
def worker_step (proto : ngram_pos_analyzer) (docs : List document)
    (results : List (Option (feature_map Nat))) (i : Nat) :
    List (Option (feature_map Nat)) :=
  results.set i (some (worker_result proto docs i))

/-- Running the workers in the completion order given by `schedule`. -/
def run_schedule (proto : ngram_pos_analyzer) (docs : List document)
    (schedule : List Nat) (results : List (Option (feature_map Nat))) :
    List (Option (feature_map Nat)) :=
  schedule.foldl (worker_step proto docs) results

/-! ## Concrete data for witnesses -/

/-- The POS tag `NN` of the spec's n-gram example. -/
def tag_NN : String := "NN"

/-- The POS tag `VB` of the spec's n-gram example. -/
def tag_VB : String := "VB"

/-- The spec's example tag sequence `[NN, VB, NN]`. -/
def example_tags : List String := [tag_NN, tag_VB, tag_NN]

/-- The expected first bigram key of the example. -/
def key_NN_VB : String := "NN_VB"

/-- The expected second bigram key of the example. -/
def key_VB_NN : String := "VB_NN"

/-- A concrete tagger: it tags each position with the token at that
position (so tags mirror tokens). -/
def demo_crf : crf_model :=
  ⟨fun toks i => toks.getD i lbl_w⟩

/-- A concrete filter chain: the whole content is one one-token segment. -/
def demo_segmenter : String → List (List String) :=
  fun c => [[c]]

/-- A concrete prototype with clean scratch state. -/
def demo_proto : ngram_pos_analyzer :=
  ⟨1, demo_crf, demo_segmenter, []⟩

/-- The same configuration with dirty scratch state. -/
def demo_proto_dirty : ngram_pos_analyzer :=
  ⟨1, demo_crf, demo_segmenter, [[lbl_w]]⟩

/-- A concrete document. -/
def demo_doc1 : document := ⟨lbl_S⟩

/-- Another concrete document. -/
def demo_doc2 : document := ⟨lbl_NP⟩

/-- The two demo documents. -/
def demo_docs : List document := [demo_doc1, demo_doc2]

/-- A completion order for the two demo workers. -/
def demo_schedule : List Nat := [1, 0]

/-- A concrete token sequence for the tagger witness. -/
def demo_toks : List String := [lbl_w, lbl_NP]

/-- A configuration block with `ngram = 0`. -/
def cfg_zero : analyzer_config := ⟨some 0, some lbl_w⟩

/-- A concrete feature map with one unrelated entry. -/
def demo_map : feature_map Nat := [(lbl_w, 5)]

/-- The empty pipeline at the counts instantiation. -/
def empty_pipeline : pipeline feature_kind.counts := ⟨[]⟩

/-- A registry with nothing registered. -/
def empty_registry :
    List (String × (analyzer_config → Except config_error ngram_pos_analyzer)) :=
  []

/-! ## Basic feature-map lemmas -/

theorem fm_find?_inc_self (m : feature_map Nat) (key : String) :
    fm_find? (fm_inc m key) key = some ((fm_getD m key + 1) % UINT64_LIMIT) := by
  induction m with
  | nil => simp [fm_inc, fm_find?, fm_getD]
  | cons hd tl ih =>
    obtain ⟨k, v⟩ := hd
    by_cases hk : k = key
    · subst hk
      simp [fm_inc, fm_find?, fm_getD]
    · simp [fm_inc, fm_find?, fm_getD, hk] at ih ⊢
      exact ih

theorem fm_find?_inc_ne (m : feature_map Nat) (key k : String) (h : k ≠ key) :
    fm_find? (fm_inc m key) k = fm_find? m k := by
  induction m with
  | nil => simp [fm_inc, fm_find?, Ne.symm h]
  | cons hd tl ih =>
    obtain ⟨k', v⟩ := hd
    by_cases hk : k' = key
    · subst hk
      simp [fm_inc, fm_find?, Ne.symm h]
    · by_cases hk2 : k' = k <;> simp [fm_inc, fm_find?, hk, hk2, ih, h, Ne.symm h]

theorem fm_find?_inc_isSome (m : feature_map Nat) (key k : String)
    (h : (fm_find? m k).isSome) : (fm_find? (fm_inc m key) k).isSome := by
  by_cases hk : k = key
  · subst hk
    simp [fm_find?_inc_self]
  · rw [fm_find?_inc_ne m key k hk]
    exact h

theorem fm_getD_inc_self (m : feature_map Nat) (key : String) :
    fm_getD (fm_inc m key) key = (fm_getD m key + 1) % UINT64_LIMIT := by
  simp [fm_getD, fm_find?_inc_self m key]

theorem fm_inc_all_not_mem (keys : List String) (m : feature_map Nat)
    (k : String) (h : k ∉ keys) :
    fm_find? (fm_inc_all m keys) k = fm_find? m k := by
  induction keys generalizing m with
  | nil => rfl
  | cons a as ih =>
    have hka : k ≠ a := fun he => h (he ▸ List.mem_cons_self a as)
    have has : k ∉ as := fun hm => h (List.mem_cons_of_mem a hm)
    show fm_find? (fm_inc_all (fm_inc m a) as) k = fm_find? m k
    rw [ih (fm_inc m a) has, fm_find?_inc_ne m a k hka]

theorem fm_inc_all_isSome (keys : List String) (m : feature_map Nat)
    (k : String) (h : (fm_find? m k).isSome) :
    (fm_find? (fm_inc_all m keys) k).isSome := by
  induction keys generalizing m with
  | nil => exact h
  | cons a as ih =>
    exact ih (fm_inc m a) (fm_find?_inc_isSome m a k h)

theorem fm_inc_all_mem (keys : List String) (m : feature_map Nat)
    (k : String) (h : k ∈ keys) :
    fm_getD (fm_inc_all m keys) k
      = (fm_getD m k + keys.count k) % UINT64_LIMIT := by
  induction keys generalizing m with
  | nil => cases h
  | cons a as ih =>
    show fm_getD (fm_inc_all (fm_inc m a) as) k = _
    by_cases hmem : k ∈ as
    · rw [ih (fm_inc m a) hmem]
      by_cases hka : k = a
      · subst hka
        rw [fm_getD_inc_self, Nat.mod_add_mod, List.count_cons_self]
        congr 1
        omega
      · rw [List.count_cons_of_ne hka]
        have hfind : fm_find? (fm_inc m a) k = fm_find? m k :=
          fm_find?_inc_ne m a k hka
        simp only [fm_getD, hfind]
    · have hka : k = a := by
        rcases List.mem_cons.mp h with h1 | h2
        · exact h1
        · exact absurd h2 hmem
      subst hka
      have hfind : fm_find? (fm_inc_all (fm_inc m k) as) k
          = fm_find? (fm_inc m k) k :=
        fm_inc_all_not_mem as (fm_inc m k) k hmem
      simp only [fm_getD, hfind, fm_find?_inc_self, List.count_cons_self,
        List.count_eq_zero_of_not_mem hmem, Option.getD_some]

/-! ## Height characterization -/

theorem foldl_max_shift (hs : List Nat) (a b : Nat) :
    hs.foldl max (max a b) = max a (hs.foldl max b) := by
  induction hs generalizing b with
  | nil => rfl
  | cons h t ih =>
    show t.foldl max (max (max a b) h) = _
    rw [max_assoc, ih (max b h)]
    rfl

theorem heightAux_eq (cs : List node) (acc : Nat) :
    heightAux acc cs = max acc ((cs.map height).foldl max 0) := by
  induction cs generalizing acc with
  | nil => simp [heightAux]
  | cons c t ih =>
    show heightAux (max acc (height c)) t = _
    rw [ih]
    rw [List.map_cons, List.foldl_cons, Nat.zero_max]
    have h2 : (t.map height).foldl max (height c)
        = max (height c) ((t.map height).foldl max 0) := by
      have h3 := foldl_max_shift (t.map height) (height c) 0
      rwa [Nat.max_zero] at h3
    rw [h2, max_assoc]

theorem height_internal_eq (cat : String) (cs : List node) :
    height (node.internal cat cs) = (cs.map height).foldl max 0 + 1 := by
  show heightAux 0 cs + 1 = _
  rw [heightAux_eq, Nat.zero_max]

/-! ## Composition lemmas for the n-gram tokenizer -/

theorem fm_inc_all_append (m : feature_map Nat) (k1 k2 : List String) :
    fm_inc_all m (k1 ++ k2) = fm_inc_all (fm_inc_all m k1) k2 :=
  List.foldl_append fm_inc m k1 k2

theorem tokenize_eq_inc_all (a : ngram_pos_analyzer) (doc : document)
    (m : feature_map Nat) :
    tokenize a doc m = fm_inc_all m (doc_emitted a doc) := by
  unfold tokenize doc_emitted
  generalize a.segmenter doc.content = segs
  induction segs generalizing m with
  | nil => rfl
  | cons s rest ih =>
    show rest.foldl _
        (segment_tokenize a.n_value (tag_sequence a.crf s) m) = _
    rw [ih]
    show fm_inc_all
        (fm_inc_all m (emitted_windows a.n_value (tag_sequence a.crf s))) _
      = _
    rw [← fm_inc_all_append]
    rfl

theorem emitted_windows_length (n : Nat) (tags : List String) :
    (emitted_windows n tags).length = tags.length + 1 - n := by
  simp [emitted_windows, tag_windows]

/-! ## Schedule semantics -/

theorem run_schedule_getElem? (proto : ngram_pos_analyzer)
    (docs : List document) (s : List Nat)
    (res : List (Option (feature_map Nat))) (j : Nat) :
    (run_schedule proto docs s res)[j]?
      = if j ∈ s ∧ j < res.length
        then some (some (worker_result proto docs j))
        else res[j]? := by
  induction s generalizing res with
  | nil => simp [run_schedule]
  | cons a s ih =>
    show (run_schedule proto docs s (worker_step proto docs res a))[j]? = _
    rw [ih]
    simp only [worker_step, List.length_set]
    by_cases hj : j < res.length
    · by_cases hjs : j ∈ s
      · rw [if_pos ⟨hjs, hj⟩, if_pos ⟨List.mem_cons_of_mem a hjs, hj⟩]
      · rw [if_neg (fun hc => hjs hc.1)]
        by_cases hja : j = a
        · subst hja
          rw [if_pos ⟨List.mem_cons_self j s, hj⟩]
          rw [List.getElem?_set_self']
          obtain ⟨x, hx⟩ : ∃ x, res[j]? = some x :=
            ⟨res[j], List.getElem?_eq_getElem hj⟩
          rw [hx]
          rfl
        · have hmem : j ∉ a :: s := by
            intro hc
            rcases List.mem_cons.mp hc with h1 | h2
            · exact hja h1
            · exact hjs h2
          rw [if_neg (fun hc => hmem hc.1)]
          exact List.getElem?_set_ne (fun h => hja h.symm)
    · rw [if_neg (fun hc => hj hc.2), if_neg (fun hc => hj hc.2)]
      have h1 : (res.set a (some (worker_result proto docs a)))[j]? = none :=
        List.getElem?_eq_none (by rw [List.length_set]; omega)
      have h2 : res[j]? = none := List.getElem?_eq_none (by omega)
      rw [h1, h2]

/-! ## Claim theorems -/

/-- Claim C1: the tree-depth extractor computes the tree height recursively
(a leaf's height is 1; an internal node's height is one plus the maximum
of its children's heights, folded over the children) and adds exactly one
occurrence of the single feature key `"depth-" ++ h`: that key's count
goes up by one and every other key is untouched; the three worked examples
of the spec hold starting from an empty map. -/
theorem depth_featurizer_spec (t : node) (m : feature_map Nat)
    (lbl cat : String) (cs : List node) :
    height (node.leaf lbl) = 1
    ∧ height (node.internal cat cs) = (cs.map height).foldl max 0 + 1
    ∧ fm_find? (tree_tokenize t m) (depth_key t)
        = some ((fm_getD m (depth_key t) + 1) % UINT64_LIMIT)
    ∧ (∀ k, k ≠ depth_key t → fm_find? (tree_tokenize t m) k = fm_find? m k)
    ∧ tree_tokenize leaf_tree [] = [(depth1_key, 1)]
    ∧ tree_tokenize two_leaf_tree [] = [(depth2_key, 1)]
    ∧ tree_tokenize chain_tree [] = [(depth3_key, 1)] :=
  ⟨rfl, height_internal_eq cat cs, fm_find?_inc_self m (depth_key t),
   fun k hk => fm_find?_inc_ne m (depth_key t) k hk,
   by decide, by decide, by decide⟩

/-- Witness for C1 at concrete inputs. -/
theorem depth_featurizer_spec_witness :
    fm_find? (tree_tokenize leaf_tree demo_map) lbl_S
      = fm_find? demo_map lbl_S :=
  (depth_featurizer_spec leaf_tree demo_map lbl_w lbl_w []).2.2.2.1 lbl_S
    (by decide)

/-- Claim C10: the height visitor returns 1 on a childless internal node
(the running maximum starts at 0 and one is added), the depth extractor
accepts such a tree without error and emits the same feature as for a
single-leaf tree, namely `depth-1` with count 1. -/
theorem childless_internal_depth (cat lbl : String) (m : feature_map Nat) :
    height (node.internal cat []) = 1
    ∧ tree_tokenize (node.internal cat []) m = tree_tokenize (node.leaf lbl) m
    ∧ tree_tokenize (node.internal cat []) [] = [(depth1_key, 1)] := by
  refine ⟨rfl, rfl, ?_⟩
  have h2 : tree_tokenize (node.internal cat []) ([] : feature_map Nat)
      = tree_tokenize leaf_tree [] := rfl
  rw [h2]
  decide

/-- Claim C2: for a tag sequence of length `L` and configured window width
`n ≥ 1`, the extractor emits exactly `L - n + 1` window occurrences when
`n ≤ L` and none when `n > L`; each emitted window key's count rises by
the number of its occurrences (duplicates counted) and untouched keys are
unchanged; the spec's example yields
`{"NN_VB": 1, "VB_NN": 1}`. -/
theorem ngram_window_spec (n : Nat) (tags : List String)
    (m : feature_map Nat) (hn : 1 ≤ n) :
    (n ≤ tags.length →
      (emitted_windows n tags).length = tags.length - n + 1)
    ∧ (tags.length < n →
        emitted_windows n tags = [] ∧ segment_tokenize n tags m = m)
    ∧ (∀ k, k ∈ emitted_windows n tags →
        fm_getD (segment_tokenize n tags m) k
          = (fm_getD m k + (emitted_windows n tags).count k) % UINT64_LIMIT)
    ∧ (∀ k, k ∉ emitted_windows n tags →
        fm_find? (segment_tokenize n tags m) k = fm_find? m k)
    ∧ segment_tokenize 2 example_tags []
        = [(key_NN_VB, 1), (key_VB_NN, 1)] := by
  refine ⟨?_, ?_, ?_, ?_, by decide⟩
  · intro h
    rw [emitted_windows_length]
    omega
  · intro h
    have he : emitted_windows n tags = [] :=
      List.length_eq_zero.mp (by rw [emitted_windows_length]; omega)
    refine ⟨he, ?_⟩
    show fm_inc_all m (emitted_windows n tags) = m
    rw [he]
    rfl
  · intro k hk
    exact fm_inc_all_mem _ m k hk
  · intro k hk
    exact fm_inc_all_not_mem _ m k hk

/-- Witness for C2 at the spec's example. -/
theorem ngram_window_spec_witness :
    (emitted_windows 2 example_tags).length = example_tags.length - 2 + 1
    ∧ segment_tokenize 2 example_tags []
        = [(key_NN_VB, 1), (key_VB_NN, 1)] :=
  ⟨(ngram_window_spec 2 example_tags [] (by decide)).1 (by decide),
   (ngram_window_spec 2 example_tags [] (by decide)).2.2.2.2⟩

/-- Claim C3: `analyze` is deterministic and a pure function of document
content and extractor configuration: clones of configuration-equal
prototypes produce identical feature maps on content-equal documents,
analyzing on a clone equals analyzing on the prototype, and cloning
depends only on configuration. -/
theorem analyze_deterministic (p q : ngram_pos_analyzer) (d1 d2 : document)
    (hn : p.n_value = q.n_value) (hc : p.crf = q.crf)
    (hs : p.segmenter = q.segmenter) (hd : d1.content = d2.content) :
    analyze (clone p) d1 = analyze (clone q) d2
    ∧ analyze (clone p) d1 = analyze p d1
    ∧ clone p = clone q := by
  have hclone : clone p = clone q := by
    unfold clone
    rw [hn, hc, hs]
  refine ⟨?_, rfl, hclone⟩
  rw [hclone]
  unfold analyze tokenize
  rw [hd]

/-- Witness for C3: same configuration, different scratch state. -/
theorem analyze_deterministic_witness :
    analyze (clone demo_proto) demo_doc1
      = analyze (clone demo_proto_dirty) demo_doc1 :=
  (analyze_deterministic demo_proto demo_proto_dirty demo_doc1 demo_doc1
    rfl rfl rfl rfl).1

/-- Claim C4: a configured `ngram` that is zero or negative makes prototype
construction fail with a configuration error; no prototype is ever
returned (the value is not clamped or defaulted). -/
theorem ngram_pos_create_rejects_nonpositive (cfg : analyzer_config)
    (chain : String → List (List String)) (model : crf_model) (nv : Int)
    (hv : analyzer_config.ngram cfg = some nv) (hnp : nv ≤ 0) :
    ngram_pos_create cfg chain model
      = Except.error (config_error.nonpositive_ngram nv)
    ∧ ∀ a, ngram_pos_create cfg chain model ≠ Except.ok a := by
  have herr : ngram_pos_create cfg chain model
      = Except.error (config_error.nonpositive_ngram nv) := by
    unfold ngram_pos_create
    rw [hv]
    simp [hnp]
  refine ⟨herr, fun a hok => ?_⟩
  rw [herr] at hok
  exact Except.noConfusion hok

/-- Witness for C4 at `ngram = 0`. -/
theorem ngram_pos_create_rejects_nonpositive_witness :
    ngram_pos_create cfg_zero demo_segmenter demo_crf
      = Except.error (config_error.nonpositive_ngram 0) :=
  (ngram_pos_create_rejects_nonpositive cfg_zero demo_segmenter demo_crf 0
    rfl (by decide)).1

/-- Claim C5: asking the registry to construct an extractor for an
unregistered identifier fails with a configuration error, constructs
nothing, and leaves the registry exactly as it was. -/
theorem load_unknown_identifier (P : Type)
    (reg : List (String × (analyzer_config → Except config_error P)))
    (method : String) (cfg : analyzer_config)
    (h : reg_lookup reg method = none) :
    (load reg method cfg).1
      = Except.error (config_error.unknown_method method)
    ∧ (load reg method cfg).2 = reg
    ∧ ∀ p : P, (load reg method cfg).1 ≠ Except.ok p := by
  have h1 : load reg method cfg
      = (Except.error (config_error.unknown_method method), reg) := by
    unfold load
    rw [h]
  rw [h1]
  exact ⟨rfl, rfl, fun p hok => Except.noConfusion hok⟩

/-- Witness for C5 at the empty registry. -/
theorem load_unknown_identifier_witness :
    (load empty_registry lbl_w cfg_zero).1
      = Except.error (config_error.unknown_method lbl_w) :=
  (load_unknown_identifier ngram_pos_analyzer empty_registry lbl_w cfg_zero
    rfl).1

/-- Claim C6: the Sequence Tagger Adapter returns a tag sequence of exactly
the input's length, an empty input segment yields an empty tag sequence
rather than an error, and the result is the same on every call for a
fixed model and input. -/
theorem tag_sequence_contract (model : crf_model) (toks : List String) :
    (tag_sequence model toks).length = toks.length
    ∧ tag_sequence model [] = []
    ∧ (∀ toks2, toks2 = toks →
        tag_sequence model toks2 = tag_sequence model toks) := by
  refine ⟨?_, rfl, fun t2 h => by rw [h]⟩
  simp [tag_sequence]

/-- Witness for C6 at a concrete model and segment. -/
theorem tag_sequence_contract_witness :
    (tag_sequence demo_crf demo_toks).length = demo_toks.length
    ∧ tag_sequence demo_crf demo_toks = tag_sequence demo_crf demo_toks :=
  ⟨(tag_sequence_contract demo_crf demo_toks).1,
   (tag_sequence_contract demo_crf demo_toks).2.2 demo_toks rfl⟩

/-- Claim C7: both variants' `tokenize` only add new entries or increment
counts in the caller-supplied map: keys outside the touched set keep their
exact values, and keys present before remain present (the map is never
cleared or replaced), so multiple extractor stages may write into the
same map. -/
theorem tokenize_frame (t : node) (a : ngram_pos_analyzer) (doc : document)
    (m : feature_map Nat) (k : String) :
    (k ≠ depth_key t → fm_find? (tree_tokenize t m) k = fm_find? m k)
    ∧ ((fm_find? m k).isSome → (fm_find? (tree_tokenize t m) k).isSome)
    ∧ (k ∉ doc_emitted a doc →
        fm_find? (tokenize a doc m) k = fm_find? m k)
    ∧ ((fm_find? m k).isSome → (fm_find? (tokenize a doc m) k).isSome) := by
  refine ⟨fun hk => fm_find?_inc_ne m (depth_key t) k hk,
          fun hs => fm_find?_inc_isSome m (depth_key t) k hs, ?_, ?_⟩
  · intro hk
    rw [tokenize_eq_inc_all]
    exact fm_inc_all_not_mem _ m k hk
  · intro hs
    rw [tokenize_eq_inc_all]
    exact fm_inc_all_isSome _ m k hs

/-- Witness for C7 at concrete inputs. -/
theorem tokenize_frame_witness :
    fm_find? (tree_tokenize two_leaf_tree demo_map) lbl_w
      = fm_find? demo_map lbl_w
    ∧ fm_find? (tokenize demo_proto demo_doc1 demo_map) lbl_w
      = fm_find? demo_map lbl_w :=
  ⟨(tokenize_frame two_leaf_tree demo_proto demo_doc1 demo_map lbl_w).1
      (by decide),
   (tokenize_frame two_leaf_tree demo_proto demo_doc1 demo_map
      lbl_w).2.2.1 (by decide)⟩

/-- Claim C8: the feature value type of a pipeline instantiation is one of
exactly two kinds — `uint64_t` counts or real-valued weights — no other
numeric type can be instantiated (the `static_assert` of `analyzer.h`),
and the kind is uniform across a pipeline: cloning all analyzers stays in
the same instantiation. -/
theorem feature_kind_spec (k : feature_kind) (T : Type) (pl : pipeline k) :
    (k = feature_kind.counts ∨ k = feature_kind.weights)
    ∧ ((∃ k2 : feature_kind, feature_value_type k2 = T)
        ↔ (T = Nat ∨ T = Rat))
    ∧ pipeline_kind (pipeline_clone_all pl) = pipeline_kind pl := by
  refine ⟨?_, ⟨?_, ?_⟩, rfl⟩
  · cases k
    · exact Or.inl rfl
    · exact Or.inr rfl
  · rintro ⟨k2, hk⟩
    cases k2
    · exact Or.inl hk.symm
    · exact Or.inr hk.symm
  · rintro (h | h)
    · exact ⟨feature_kind.counts, h.symm⟩
    · exact ⟨feature_kind.weights, h.symm⟩

/-- Witness for C8 at the counts instantiation. -/
theorem feature_kind_spec_witness :
    ∃ k2 : feature_kind, feature_value_type k2 = Nat :=
  ((feature_kind_spec feature_kind.counts Nat empty_pipeline).2.1).mpr
    (Or.inl rfl)

/-- Claim C9: running N clones of one prototype concurrently, one document
per clone and each worker writing only its own result slot, yields the
same N feature maps as the sequential run, for every completion schedule
that lets every worker finish. -/
theorem concurrent_matches_sequential (proto : ngram_pos_analyzer)
    (docs : List document) (schedule : List Nat)
    (hcov : ∀ i, i < docs.length → i ∈ schedule) :
    run_schedule proto docs schedule (List.replicate docs.length none)
      = (run_sequential proto docs).map some := by
  apply List.ext_getElem?
  intro j
  rw [run_schedule_getElem?, List.length_replicate]
  by_cases hj : j < docs.length
  · rw [if_pos ⟨hcov j hj, hj⟩]
    unfold run_sequential
    rw [List.getElem?_map, List.getElem?_map]
    have h1 : docs[j]? = some docs[j] := List.getElem?_eq_getElem hj
    rw [h1]
    show some (some (worker_result proto docs j)) = _
    unfold worker_result
    rw [List.getD_eq_getElem?_getD, h1]
    rfl
  · rw [if_neg (fun hc => hj hc.2), List.getElem?_replicate, if_neg hj]
    have h2 : ((run_sequential proto docs).map some)[j]? = none :=
      List.getElem?_eq_none (by simp [run_sequential]; omega)
    rw [h2]

/-- Witness for C9: two workers, schedule finishing worker 1 first. -/
theorem concurrent_matches_sequential_witness :
    run_schedule demo_proto demo_docs demo_schedule
        (List.replicate demo_docs.length none)
      = (run_sequential demo_proto demo_docs).map some :=
  concurrent_matches_sequential demo_proto demo_docs demo_schedule
    (by decide)
